import Mathlib

/-
Verification of the go-sundheit health-check registry core.

The registry code (health.go) is shallowly embedded below: the mutable
maps protected by the registry lock become association lists over String,
wall-clock times become Nat, Go durations (int64 nanoseconds) become Int,
Go errors become Option String (the message carried by the serializable
wrapper), and the capacity-1 buffered stop channel of a task becomes a
Bool recording whether a stop signal is currently buffered. Each Lean
definition mirrors one Go function of the source.
-/

namespace GoSundheit

/-- Association-list maps over String keys, modelling the Go maps held by
the registry under its lock. -/
abbrev SMap (α : Type) := List (String × α)

/-- Lookup of a key, the embedding of a Go map read `m[k]` (first binding
wins; the representation keeps keys unique). -/
def mapLookup {α : Type} : SMap α → String → Option α
  | [], _ => none
  | (k', v) :: rest, k => if k' = k then some v else mapLookup rest k

/-- Insertion, the embedding of a Go map write `m[k] = v`: replaces the
binding in place when the key is present, appends it otherwise. -/
def mapInsert {α : Type} : SMap α → String → α → SMap α
  | [], k, v => [(k, v)]
  | (k', v') :: rest, k, v =>
      if k' = k then (k, v) :: rest else (k', v') :: mapInsert rest k v

/-- Deletion, the embedding of the Go builtin `delete(m, k)`. -/
def mapErase {α : Type} : SMap α → String → SMap α
  | [], _ => []
  | (k', v') :: rest, k =>
      if k' = k then mapErase rest k else (k', v') :: mapErase rest k

/-- The keys of a map, used to state key-set invariants. -/
def mapKeys {α : Type} (m : SMap α) : List String := m.map Prod.fst

/-- Result represents the output of a health check execution (check.go).
Details is the opaque payload (nil or a string), Error the message of the
serializable error wrapper (nil when the execution succeeded).
ContiguousFailures is a Go int64 counter: every increment the code
performs goes through the wrapping 64-bit addition defined below. -/
structure Result where
  Details : Option String
  Error : Option String
  Timestamp : Nat
  Duration : Int
  ContiguousFailures : Int
  TimeOfFirstFailure : Option Nat
deriving DecidableEq, Repr

/-- IsHealthy returns true iff the check result snapshot was a success,
the embedding of `r.Error == nil` (check.go). -/
def Result.IsHealthy (r : Result) : Bool := r.Error.isNone

/-- newMarshalableError (check.go): nil maps to nil, any other error to
the serializable wrapper carrying the same top-level message. -/
def newMarshalableError (err : Option String) : Option String :=
  match err with
  | none => none
  | some msg => some msg

/-- The message of the synthetic initial error (check.go). -/
def errNotRunYetMsg : String := "didn\x27t run yet"

/-- ErrNotRunYet (check.go): the synthetic error stored before the first
execution of a check that is not initially passing. -/
def ErrNotRunYet : Option String := newMarshalableError (some errNotRunYetMsg)

/-- A check as the registry sees it: only its stable name is consulted by
the registry code; execution outcomes are universally quantified inputs of
the transition system below. -/
structure Check where
  name : String
deriving DecidableEq, Repr

/-- checkTask (check_task.go): the runtime record of a scheduled check.
stopChan models the capacity-1 buffered stop channel: true when a stop
signal is currently buffered. The ticker is irrelevant to the claims. -/
structure checkTask where
  stopChan : Bool
  checkName : String
  timeout : Int
deriving DecidableEq, Repr

/-- checkConfig (config.go): resolved per-check scheduling parameters. -/
structure checkConfig where
  executionPeriod : Int
  initialDelay : Int
  initiallyPassing : Bool
  executionTimeout : Int
deriving DecidableEq, Repr

/-- The per-check functional options (health_listener.go): each concrete
option type carries its datum and applyCheck writes one field. -/
inductive CheckOption where
  | executionPeriodOpt (d : Int)
  | initialDelayOpt (d : Int)
  | initiallyPassingOpt (b : Bool)
  | executionTimeoutOpt (d : Int)
deriving DecidableEq, Repr

/-- applyCheck of each option type (health_listener.go). -/
def applyCheck (c : checkConfig) (o : CheckOption) : checkConfig :=
  match o with
  | CheckOption.executionPeriodOpt d => { c with executionPeriod := d }
  | CheckOption.initialDelayOpt d => { c with initialDelay := d }
  | CheckOption.initiallyPassingOpt b => { c with initiallyPassing := b }
  | CheckOption.executionTimeoutOpt d => { c with executionTimeout := d }

/-- The registry state (health.go, struct health): the result map, the
task map and the check-config defaults. Listener slices hold no state
consulted by the claims and are omitted. -/
structure Health where
  results : SMap Result
  checkTasks : SMap checkTask
  defaultExecutionPeriod : Int
  defaultInitialDelay : Int
  defaultInitiallyPassing : Bool
deriving DecidableEq, Repr

/-- New (health.go): a fresh registry with empty maps; the defaults are
whatever the health options passed to New produced. -/
def New (dp di : Int) (ip : Bool) : Health :=
  { results := [], checkTasks := [],
    defaultExecutionPeriod := dp, defaultInitialDelay := di,
    defaultInitiallyPassing := ip }

/-- initCheckConfig (health.go): start from the registry defaults (the
timeout default is the zero value) and fold the per-check options. -/
def initCheckConfig (h : Health) (opts : List CheckOption) : checkConfig :=
  opts.foldl applyCheck
    { executionPeriod := h.defaultExecutionPeriod,
      initialDelay := h.defaultInitialDelay,
      initiallyPassing := h.defaultInitiallyPassing,
      executionTimeout := 0 }

/-- Reduction of an integer to the signed 64-bit range by two's-complement
wraparound, the overflow behaviour Go defines for int64 values. -/
def wrap64 (n : Int) : Int := (n + 2 ^ 63) % 2 ^ 64 - 2 ^ 63

/-- Go int64 addition: the mathematical sum wrapped into the signed
64-bit range. -/
def int64Add (a b : Int) : Int := wrap64 (a + b)

/-- updateResult (health.go): under the exclusive lock, read the previous
result, build the new one applying the failure-streak rules, store it and
return it. ContiguousFailures is a Go int64, so the increment wraps. -/
def updateResult (results : SMap Result) (name : String) (details : Option String)
    (checkDuration : Int) (err : Option String) (t : Nat) : SMap Result × Result :=
  let prevOpt := mapLookup results name
  let r0 : Result :=
    { Details := details, Error := newMarshalableError err, Timestamp := t,
      Duration := checkDuration, ContiguousFailures := 0, TimeOfFirstFailure := none }
  let result :=
    if !r0.IsHealthy then
      match prevOpt with
      | some prevResult =>
          { r0 with
            ContiguousFailures := int64Add prevResult.ContiguousFailures 1,
            TimeOfFirstFailure :=
              if prevResult.IsHealthy then some t else prevResult.TimeOfFirstFailure }
      | none => { r0 with ContiguousFailures := 1, TimeOfFirstFailure := some t }
    else r0
  (mapInsert results name result, result)

/-- The first half of RegisterCheck after validation (health.go lines
74-81): choose the initial error from the initiallyPassing flag and store
the initial result through updateResult. The registry lock is released
when this returns, before createCheckTask runs. -/
def registerInitialResult (h : Health) (name : String) (cfg : checkConfig)
    (t : Nat) : Health × Result :=
  let initialErr : Option String := if !cfg.initiallyPassing then ErrNotRunYet else none
  let p := updateResult h.results name (some errNotRunYetMsg) 0 initialErr t
  ({ h with results := p.1 }, p.2)

/-- createCheckTask (health.go): under the exclusive lock, build the task
with a fresh empty capacity-1 stop channel and store it in the task map. -/
def createCheckTask (h : Health) (c : Check) (timeout : Int) : Health × checkTask :=
  let task : checkTask := { stopChan := false, checkName := c.name, timeout := timeout }
  ({ h with checkTasks := mapInsert h.checkTasks c.name task }, task)

/-- RegisterCheck (health.go): validate, resolve the config, store the
initial result, create the task. Returns the new state and the error
message (none on success). A nil check is the none argument. -/
def RegisterCheck (h : Health) (check : Option Check) (opts : List CheckOption)
    (t : Nat) : Health × Option String :=
  match check with
  | none => (h, some "check must not be nil")
  | some c =>
      if c.name = "" then (h, some "check name must not be empty")
      else
        let cfg := initCheckConfig h opts
        if cfg.executionPeriod ≤ 0 then
          (h, some "execution period must be greater than 0")
        else
          let h1 := (registerInitialResult h c.name cfg t).1
          let h2 := (createCheckTask h1 c cfg.executionTimeout).1
          (h2, none)

/-- stopCheckTask (health.go): under the exclusive lock, stop the ticker
and delete both the result entry and the task entry. -/
def stopCheckTask (h : Health) (name : String) : Health :=
  { h with results := mapErase h.results name,
           checkTasks := mapErase h.checkTasks name }

/-- A plain Go send on a capacity-1 buffered channel whose content is
modelled by a Bool: it completes immediately when the buffer is empty and
blocks while the buffer is full, modelled as none. -/
def chanSend1 (pending : Bool) : Option Bool :=
  if pending then none else some true

/-- Deregister (health.go): under the shared lock, look the task up and
perform a plain send on its stop channel; none models a blocked send. -/
def Deregister (h : Health) (name : String) : Option Health :=
  match mapLookup h.checkTasks name with
  | none => some h
  | some task =>
      match chanSend1 task.stopChan with
      | none => none
      | some b =>
          some { h with
                 checkTasks := mapInsert h.checkTasks name { task with stopChan := b } }

/-- The per-task sends of DeregisterAll: a plain send on every stop
channel in order; none models the first blocked send. -/
def sendAllStops : SMap checkTask → Option (SMap checkTask)
  | [] => some []
  | (k, task) :: rest =>
      match chanSend1 task.stopChan with
      | none => none
      | some b =>
          (sendAllStops rest).map (fun r => (k, { task with stopChan := b }) :: r)

/-- DeregisterAll (health.go): under the shared lock, send a stop signal
to every known task. -/
def DeregisterAll (h : Health) : Option Health :=
  (sendAllStops h.checkTasks).map (fun ts => { h with checkTasks := ts })

/-- Results (health.go): under the shared lock, copy every entry into a
fresh map while folding the conjunction of per-result health. -/
def Results (h : Health) : SMap Result × Bool :=
  h.results.foldl
    (fun acc kv => (mapInsert acc.1 kv.1 kv.2, acc.2 && kv.2.IsHealthy))
    ([], true)

/-- allHealthy (utils.go): false at the first unhealthy entry, else true. -/
def allHealthy : SMap Result → Bool
  | [] => true
  | kv :: rest => if !kv.2.IsHealthy then false else allHealthy rest

/-- IsHealthy (health.go): allHealthy over the live result map. -/
def IsHealthy (h : Health) : Bool := allHealthy h.results

/-- checkAndUpdateResult (health.go): after an execution producing the
given details, duration and error at the given check time, store the new
result; the returned Result is the value handed to OnCheckCompleted. -/
def checkAndUpdateResult (h : Health) (name : String) (details : Option String)
    (duration : Int) (err : Option String) (checkTime : Nat) : Health × Result :=
  let p := updateResult h.results name details duration err checkTime
  ({ h with results := p.1 }, p.2)

/-- The body rendered by the HTTP handler: the full result map or the
short PASS/FAIL map (http/handler.go). -/
inductive HealthBody where
  | full (results : SMap Result)
  | short (entries : SMap String)
deriving DecidableEq, Repr

/-- The short entries of a body, when it is the short form. -/
def HealthBody.shortEntries : HealthBody → Option (SMap String)
  | HealthBody.short l => some l
  | HealthBody.full _ => none

/-- HandleHealthJSON (http/handler.go): status 200 when the snapshot is
healthy and 503 otherwise; with the query parameter type=short the body
maps each check name to PASS or FAIL by its health. -/
def HandleHealthJSON (h : Health) (typeParam : String) : Nat × HealthBody :=
  let p := Results h
  let status := if p.2 then 200 else 503
  if typeParam = "short" then
    let shortResults :=
      p.1.foldl
        (fun acc kv => mapInsert acc kv.1 (if kv.2.IsHealthy then "PASS" else "FAIL"))
        []
    (status, HealthBody.short shortResults)
  else (status, HealthBody.full p.1)

/-- The states of the registry reachable by completed operations: a fresh
registry, a successful RegisterCheck, a completed execution update of a
scheduled task, the task cleanup a worker performs after consuming a
buffered stop signal, and a completed Deregister or DeregisterAll. -/
inductive Reachable : Health → Prop where
  | init (dp di : Int) (ip : Bool) : Reachable (New dp di ip)
  | register {h h' : Health} (c : Check) (opts : List CheckOption) (t : Nat) :
      Reachable h → RegisterCheck h (some c) opts t = (h', none) → Reachable h'
  | exec {h : Health} (name : String) (details : Option String) (duration : Int)
      (err : Option String) (t : Nat) :
      Reachable h → (mapLookup h.checkTasks name).isSome = true →
      Reachable (checkAndUpdateResult h name details duration err t).1
  | consumeStop {h : Health} (name : String) (task : checkTask) :
      Reachable h → mapLookup h.checkTasks name = some task →
      task.stopChan = true → Reachable (stopCheckTask h name)
  | dereg {h h' : Health} (name : String) :
      Reachable h → Deregister h name = some h' → Reachable h'
  | deregAll {h h' : Health} :
      Reachable h → DeregisterAll h = some h' → Reachable h'

/-- The per-result invariant the registry maintains under wrapping
64-bit counter arithmetic: a healthy result has a zero failure counter,
and absence of the error coincides with absence of the first-failure
time. The converse zero-counter-implies-healthy direction is refuted by
counter wraparound (claim C2 counterexample). -/
def resultStrongInv (r : Result) : Prop :=
  (r.Error = none → r.ContiguousFailures = 0) ∧
    (r.Error = none ↔ r.TimeOfFirstFailure = none)

/-- A stored unhealthy result whose streak counter sits at the largest
int64 value, about to wrap on the next failing execution. -/
def maxStreakResult : Result :=
  { Details := none, Error := some "boom", Timestamp := 1, Duration := 0,
    ContiguousFailures := 2 ^ 63 - 1, TimeOfFirstFailure := some 1 }

/-- A result map holding the saturated-streak result. -/
def maxStreakMap : SMap Result := [("c", maxStreakResult)]

/-- The unhealthy result carried along a failing streak whose wrapped
counter currently holds c: produced by repeated failing executions with
identical details, error and timing. -/
def streakResult (c : Int) : Result :=
  { Details := none, Error := some "boom", Timestamp := 9, Duration := 0,
    ContiguousFailures := c, TimeOfFirstFailure := some 5 }

/-- The registry holding the sample check after its registration at
time 5 and a failing streak whose wrapped counter currently holds c. -/
def streakHealth (c : Int) : Health :=
  { results := [("c", streakResult c)],
    checkTasks := [("c", { stopChan := false, checkName := "c", timeout := 0 })],
    defaultExecutionPeriod := 1, defaultInitialDelay := 0,
    defaultInitiallyPassing := false }

/-- A concrete check used to instantiate theorems on explicit states. -/
def sampleCheck : Check := { name := "c" }

/-- A fresh registry with execution-period default 1. -/
def sampleH0 : Health := New 1 0 false

/-- The registry after registering the sample check at time 5. -/
def sampleH1 : Health := (RegisterCheck sampleH0 (some sampleCheck) [] 5).1

/-- The registry after one Deregister of the sample check: the stop
signal is buffered and not yet consumed by the worker. -/
def sampleH2 : Health := (Deregister sampleH1 "c").getD sampleH0

/-- The state observable between the two critical sections of a
RegisterCheck running on the fresh registry: the initial result is
stored, the task is not yet created and the lock is released. -/
def sampleMid : Health :=
  (registerInitialResult sampleH0 "c" (initCheckConfig sampleH0 []) 5).1

/-- The initial result stored by the sample registration: not initially
passing, so it carries the synthetic error and a streak of one. -/
def sampleInitialResult : Result :=
  { Details := some errNotRunYetMsg, Error := some errNotRunYetMsg, Timestamp := 5,
    Duration := 0, ContiguousFailures := 1, TimeOfFirstFailure := some 5 }

/-- A concrete unhealthy stored result with a running streak of two. -/
def sampleFailResult : Result :=
  { Details := none, Error := some "boom", Timestamp := 1, Duration := 2,
    ContiguousFailures := 2, TimeOfFirstFailure := some 1 }

/-- A result map holding the unhealthy sample result. -/
def sampleFailMap : SMap Result := [("c", sampleFailResult)]

/-- Looking the inserted key up finds the inserted value. -/
theorem mapLookup_mapInsert_self {α : Type} (m : SMap α) (k : String) (v : α) :
    mapLookup (mapInsert m k v) k = some v := by
  induction m with
  | nil => simp [mapInsert, mapLookup]
  | cons kv rest ih =>
      obtain ⟨k0, v0⟩ := kv
      by_cases hk : k0 = k
      · subst hk; simp [mapInsert, mapLookup]
      · simp [mapInsert, mapLookup, hk, ih]

/-- Insertion leaves the lookup of every other key unchanged. -/
theorem mapLookup_mapInsert_ne {α : Type} (m : SMap α) (k k' : String) (v : α)
    (h : k' ≠ k) : mapLookup (mapInsert m k v) k' = mapLookup m k' := by
  induction m with
  | nil => simp [mapInsert, mapLookup, Ne.symm h]
  | cons kv rest ih =>
      obtain ⟨k0, v0⟩ := kv
      by_cases hk : k0 = k
      · subst hk; simp [mapInsert, mapLookup, Ne.symm h]
      · simp [mapInsert, mapLookup, hk, ih]

/-- The key list of the empty map. -/
@[simp]
theorem mapKeys_nil {α : Type} : mapKeys ([] : SMap α) = [] := rfl

/-- The key list of a cons cell. -/
@[simp]
theorem mapKeys_cons {α : Type} (k0 : String) (v0 : α) (rest : SMap α) :
    mapKeys ((k0, v0) :: rest) = k0 :: mapKeys rest := rfl

/-- Lookup after deletion: none at the deleted key, unchanged elsewhere. -/
theorem mapLookup_mapErase {α : Type} (m : SMap α) (k k' : String) :
    mapLookup (mapErase m k) k' = if k' = k then none else mapLookup m k' := by
  induction m with
  | nil => simp [mapErase, mapLookup]
  | cons kv rest ih =>
      obtain ⟨k0, v0⟩ := kv
      simp only [mapErase]
      by_cases hk : k0 = k
      · rw [if_pos hk, ih]
        by_cases hk' : k' = k
        · simp [hk']
        · have hne : ¬ k0 = k' := fun hh => hk' (hh.symm.trans hk)
          simp [hk', mapLookup, hne]
      · rw [if_neg hk]
        simp only [mapLookup, ih]
        by_cases hk' : k' = k
        · have hne : ¬ k0 = k' := fun hh => hk (hh.trans hk')
          simp [hk', hne, hk]
        · simp [hk']

/-- A key is a member of the key list iff its lookup succeeds. -/
theorem mapLookup_isSome_iff_mem {α : Type} (m : SMap α) (k : String) :
    (mapLookup m k).isSome = true ↔ k ∈ mapKeys m := by
  induction m with
  | nil => simp [mapLookup]
  | cons kv rest ih =>
      obtain ⟨k0, v0⟩ := kv
      simp only [mapLookup, mapKeys_cons]
      by_cases hk : k0 = k
      · simp [hk]
      · have hne : ¬ k = k0 := fun hh => hk hh.symm
        simp [hk, hne, ih]

/-- A key outside the key list looks up to none. -/
theorem mapLookup_eq_none_of_not_mem {α : Type} (m : SMap α) (k : String)
    (h : k ∉ mapKeys m) : mapLookup m k = none := by
  cases hl : mapLookup m k with
  | none => rfl
  | some v =>
      exact absurd ((mapLookup_isSome_iff_mem m k).mp (by simp [hl])) h

/-- The key list after an insertion: unchanged for a present key, the new
key appended otherwise. -/
theorem mapKeys_mapInsert {α : Type} (m : SMap α) (k : String) (v : α) :
    mapKeys (mapInsert m k v) =
      if k ∈ mapKeys m then mapKeys m else mapKeys m ++ [k] := by
  induction m with
  | nil => simp [mapInsert]
  | cons kv rest ih =>
      obtain ⟨k0, v0⟩ := kv
      simp only [mapInsert]
      by_cases hk : k0 = k
      · simp [hk]
      · have hne : ¬ k = k0 := fun hh => hk hh.symm
        rw [if_neg hk, mapKeys_cons, mapKeys_cons, ih]
        by_cases hmem : k ∈ mapKeys rest
        · simp [hmem, hne]
        · simp [hmem, hne]

/-- Insertion preserves distinctness of the keys. -/
theorem nodup_mapKeys_mapInsert {α : Type} (m : SMap α) (k : String) (v : α)
    (h : (mapKeys m).Nodup) : (mapKeys (mapInsert m k v)).Nodup := by
  rw [mapKeys_mapInsert]
  split
  · exact h
  · next hk =>
      refine List.Nodup.append h (List.nodup_singleton k) ?_
      intro a ha hb
      simp at hb
      subst hb
      exact hk ha

/-- The copying fold of Results splits into the map copy and the health
conjunction over all entries. -/
theorem results_foldl_split (l : SMap Result) :
    ∀ (m : SMap Result) (b : Bool),
      l.foldl (fun acc kv => (mapInsert acc.1 kv.1 kv.2, acc.2 && kv.2.IsHealthy)) (m, b) =
        (l.foldl (fun acc kv => mapInsert acc kv.1 kv.2) m,
         b && l.all (fun kv => kv.2.IsHealthy)) := by
  induction l with
  | nil => intro m b; simp
  | cons kv rest ih =>
      intro m b
      simp [List.foldl_cons, ih, Bool.and_assoc]

/-- Lookup through an insert-rebuilding fold with a value transform: when
the source keys are distinct, a key of the source maps to its transformed
value; any other key keeps its binding in the accumulator. -/
theorem foldl_mapInsert_lookup {α β : Type} (g : String → α → β) :
    ∀ (l : SMap α) (acc : SMap β) (k : String), (mapKeys l).Nodup →
      mapLookup (l.foldl (fun a kv => mapInsert a kv.1 (g kv.1 kv.2)) acc) k =
        (match mapLookup l k with
         | some v => some (g k v)
         | none => mapLookup acc k) := by
  intro l
  induction l with
  | nil => intro acc k _; simp [mapLookup]
  | cons kv rest ih =>
      intro acc k h
      obtain ⟨k0, v0⟩ := kv
      rw [mapKeys_cons, List.nodup_cons] at h
      rw [List.foldl_cons, ih _ _ h.2]
      by_cases hkk : k0 = k
      · have hnone : mapLookup rest k = none := by
          rw [← hkk]
          exact mapLookup_eq_none_of_not_mem rest k0 h.1
        subst hkk
        simp [mapLookup, hnone, mapLookup_mapInsert_self]
      · have hne : k ≠ k0 := fun hh => hkk hh.symm
        simp only [mapLookup, if_neg hkk]
        rw [mapLookup_mapInsert_ne _ _ _ _ hne]

/-- An insert-rebuilding fold always produces distinct keys when started
from an accumulator with distinct keys. -/
theorem foldl_mapInsert_nodup {α β : Type} (g : String → α → β) :
    ∀ (l : SMap α) (acc : SMap β), (mapKeys acc).Nodup →
      (mapKeys (l.foldl (fun a kv => mapInsert a kv.1 (g kv.1 kv.2)) acc)).Nodup := by
  intro l
  induction l with
  | nil => intro acc h; exact h
  | cons kv rest ih =>
      intro acc h
      exact ih _ (nodup_mapKeys_mapInsert _ _ _ h)

/-- allHealthy agrees with the boolean conjunction over entries. -/
theorem allHealthy_eq_all (l : SMap Result) :
    allHealthy l = l.all (fun kv => kv.2.IsHealthy) := by
  induction l with
  | nil => rfl
  | cons kv rest ih =>
      by_cases hkv : kv.2.IsHealthy
      · simp [allHealthy, hkv, ih]
      · simp [allHealthy, hkv]

/-- The new result map of updateResult is the insert of the new result. -/
theorem updateResult_fst (results : SMap Result) (name : String)
    (details : Option String) (dur : Int) (err : Option String) (t : Nat) :
    (updateResult results name details dur err t).1 =
      mapInsert results name (updateResult results name details dur err t).2 := rfl

/-- The wrapped sum of two values depends only on the residue of the
first, so wrapping an already-wrapped partial sum loses nothing. -/
theorem wrap64_wrap64_add (a b : Int) : wrap64 (wrap64 a + b) = wrap64 (a + b) := by
  unfold wrap64
  rw [show (a + 2 ^ 63) % 2 ^ 64 - 2 ^ 63 + b + 2 ^ 63 =
        (a + 2 ^ 63) % 2 ^ 64 + b from by ring,
    Int.emod_add_emod,
    show a + 2 ^ 63 + b = a + b + 2 ^ 63 from by ring]

/-- Incrementing a zero counter gives one, with or without wrapping. -/
theorem int64Add_zero_one : int64Add 0 1 = 1 := by decide

/-- The result computed by updateResult satisfies the invariant whenever
the previous binding at the same name does. -/
theorem updateResult_snd_strongInv (results : SMap Result) (name : String)
    (details : Option String) (dur : Int) (err : Option String) (t : Nat)
    (hprev : ∀ p, mapLookup results name = some p → resultStrongInv p) :
    resultStrongInv (updateResult results name details dur err t).2 := by
  unfold updateResult
  cases err with
  | none => simp [Result.IsHealthy, newMarshalableError, resultStrongInv]
  | some msg =>
      cases hl : mapLookup results name with
      | none => simp [Result.IsHealthy, newMarshalableError, resultStrongInv, hl]
      | some p =>
          obtain ⟨hcf, htoff⟩ := hprev p hl
          cases hpe : p.Error with
          | none =>
              simp [resultStrongInv, Result.IsHealthy, newMarshalableError, hl, hpe]
          | some e =>
              cases ht : p.TimeOfFirstFailure with
              | none =>
                  have hcontra : p.Error = none := htoff.mpr ht
                  rw [hcontra] at hpe
                  cases hpe
              | some t0 =>
                  simp [resultStrongInv, Result.IsHealthy, newMarshalableError, hl, hpe, ht]

/-- updateResult keeps the strengthened invariant on every entry of the
result map. -/
theorem updateResult_preserves_strongInv (results : SMap Result) (name : String)
    (details : Option String) (dur : Int) (err : Option String) (t : Nat)
    (hall : ∀ k r, mapLookup results k = some r → resultStrongInv r) :
    ∀ k r, mapLookup (updateResult results name details dur err t).1 k = some r →
      resultStrongInv r := by
  intro k r hk
  rw [updateResult_fst] at hk
  by_cases hkn : k = name
  · subst hkn
    rw [mapLookup_mapInsert_self] at hk
    cases hk
    exact updateResult_snd_strongInv results k details dur err t (fun p hp => hall k p hp)
  · rw [mapLookup_mapInsert_ne _ _ _ _ hkn] at hk
    exact hall k r hk

/-- The state produced by a successful RegisterCheck: the initial result
stored through updateResult and the fresh task stored in the task map. -/
theorem registerCheck_ok {h h' : Health} {c : Check} {opts : List CheckOption} {t : Nat}
    (hok : RegisterCheck h (some c) opts t = (h', none)) :
    h' = { h with
           results := (updateResult h.results c.name (some errNotRunYetMsg) 0
             (if !(initCheckConfig h opts).initiallyPassing then ErrNotRunYet else none)
             t).1,
           checkTasks := mapInsert h.checkTasks c.name
             { stopChan := false, checkName := c.name,
               timeout := (initCheckConfig h opts).executionTimeout } } := by
  simp only [RegisterCheck] at hok
  split at hok
  · simp at hok
  · split at hok
    · simp at hok
    · simp only [registerInitialResult, createCheckTask, Prod.mk.injEq] at hok
      exact hok.1.symm

/-- A completed Deregister leaves the result map untouched. -/
theorem deregister_some_results {h h' : Health} {name : String}
    (hd : Deregister h name = some h') : h'.results = h.results := by
  unfold Deregister at hd
  split at hd
  · cases hd; rfl
  · unfold chanSend1 at hd
    split at hd
    · simp at hd
    · simp only [Option.some.injEq] at hd
      rw [← hd]

/-- A completed Deregister leaves every other field of the registry
untouched and only rewrites the task map. -/
theorem deregister_some_tasks_isSome {h h' : Health} {name : String}
    (hd : Deregister h name = some h') :
    ∀ k, (mapLookup h'.checkTasks k).isSome = (mapLookup h.checkTasks k).isSome := by
  intro k
  unfold Deregister at hd
  split at hd
  · cases hd; rfl
  · next task heq =>
      unfold chanSend1 at hd
      split at hd
      · simp at hd
      · simp only [Option.some.injEq] at hd
        rw [← hd]
        by_cases hk : k = name
        · subst hk
          rw [mapLookup_mapInsert_self, heq]
          rfl
        · rw [mapLookup_mapInsert_ne _ _ _ _ hk]

/-- The per-task stop sends of DeregisterAll keep the key set of the task
map when they complete. -/
theorem sendAllStops_isSome :
    ∀ (l l' : SMap checkTask), sendAllStops l = some l' →
      ∀ k, (mapLookup l' k).isSome = (mapLookup l k).isSome := by
  intro l
  induction l with
  | nil =>
      intro l' hl k
      simp only [sendAllStops, Option.some.injEq] at hl
      rw [← hl]
  | cons kv rest ih =>
      intro l' hl k
      obtain ⟨k0, task⟩ := kv
      simp only [sendAllStops] at hl
      cases hs : chanSend1 task.stopChan with
      | none => rw [hs] at hl; cases hl
      | some b =>
          rw [hs] at hl
          cases hr : sendAllStops rest with
          | none => rw [hr] at hl; cases hl
          | some r =>
              rw [hr] at hl
              simp only [Option.map_some', Option.some.injEq] at hl
              rw [← hl]
              by_cases hk : k0 = k
              · simp [mapLookup, hk]
              · simp [mapLookup, hk, ih r hr k]

/-- A completed DeregisterAll leaves the result map untouched. -/
theorem deregisterAll_some_results {h h' : Health}
    (hd : DeregisterAll h = some h') : h'.results = h.results := by
  unfold DeregisterAll at hd
  cases hs : sendAllStops h.checkTasks with
  | none => rw [hs] at hd; cases hd
  | some ts =>
      rw [hs] at hd
      simp only [Option.map_some', Option.some.injEq] at hd
      rw [← hd]

/-- A completed DeregisterAll keeps the key set of the task map. -/
theorem deregisterAll_some_tasks_isSome {h h' : Health}
    (hd : DeregisterAll h = some h') :
    ∀ k, (mapLookup h'.checkTasks k).isSome = (mapLookup h.checkTasks k).isSome := by
  intro k
  unfold DeregisterAll at hd
  cases hs : sendAllStops h.checkTasks with
  | none => rw [hs] at hd; cases hd
  | some ts =>
      rw [hs] at hd
      simp only [Option.map_some', Option.some.injEq] at hd
      rw [← hd]
      exact sendAllStops_isSome h.checkTasks ts hs k

/-- Every result ever stored in a reachable registry state satisfies the
strengthened invariant. -/
theorem reachable_strongInv {h : Health} (hre : Reachable h) :
    ∀ k r, mapLookup h.results k = some r → resultStrongInv r := by
  induction hre with
  | init dp di ip =>
      intro k r hk
      simp [New, mapLookup] at hk
  | register c opts t hre hok ih =>
      intro k r hk
      rw [registerCheck_ok hok] at hk
      exact updateResult_preserves_strongInv _ _ _ _ _ _ ih k r hk
  | exec name details duration err t hre htask ih =>
      intro k r hk
      simp only [checkAndUpdateResult] at hk
      exact updateResult_preserves_strongInv _ _ _ _ _ _ ih k r hk
  | consumeStop name task hre hl hstop ih =>
      intro k r hk
      simp only [stopCheckTask] at hk
      rw [mapLookup_mapErase] at hk
      split at hk
      · cases hk
      · exact ih k r hk
  | dereg name hre hd ih =>
      intro k r hk
      rw [deregister_some_results hd] at hk
      exact ih k r hk
  | deregAll hre hd ih =>
      intro k r hk
      rw [deregisterAll_some_results hd] at hk
      exact ih k r hk

/-- In every reachable registry state a name is bound in the result map
iff it is bound in the task map. -/
theorem reachable_keys {h : Health} (hre : Reachable h) :
    ∀ k, (mapLookup h.results k).isSome = (mapLookup h.checkTasks k).isSome := by
  induction hre with
  | init dp di ip =>
      intro k
      simp [New, mapLookup]
  | register c opts t hre hok ih =>
      intro k
      rw [registerCheck_ok hok]
      simp only
      by_cases hk : k = c.name
      · subst hk
        rw [updateResult_fst, mapLookup_mapInsert_self, mapLookup_mapInsert_self]
        rfl
      · rw [updateResult_fst, mapLookup_mapInsert_ne _ _ _ _ hk,
          mapLookup_mapInsert_ne _ _ _ _ hk]
        exact ih k
  | exec name details duration err t hre htask ih =>
      intro k
      simp only [checkAndUpdateResult]
      by_cases hk : k = name
      · subst hk
        rw [updateResult_fst, mapLookup_mapInsert_self, htask]
        rfl
      · rw [updateResult_fst, mapLookup_mapInsert_ne _ _ _ _ hk]
        exact ih k
  | consumeStop name task hre hl hstop ih =>
      intro k
      simp only [stopCheckTask]
      rw [mapLookup_mapErase, mapLookup_mapErase]
      split
      · rfl
      · exact ih k
  | dereg name hre hd ih =>
      intro k
      rw [deregister_some_results hd, deregister_some_tasks_isSome hd]
      exact ih k
  | deregAll hre hd ih =>
      intro k
      rw [deregisterAll_some_results hd, deregisterAll_some_tasks_isSome hd]
      exact ih k

/-- Claim C1 counterexample: the claim asserts that a failing execution
after an unhealthy stored result leaves ContiguousFailures equal to the
previous value plus one; at a stored result holding the largest int64
value - a result inside the domain of the claim, since it is unhealthy
with a nonzero counter and a first-failure time - the Go int64 increment
wraps to the most negative value instead of the mathematical sum. -/
theorem claim_C1_cex :
    (maxStreakResult.Error = none ↔ maxStreakResult.ContiguousFailures = 0) ∧
    maxStreakResult.IsHealthy = false ∧
    mapLookup maxStreakMap "c" = some maxStreakResult ∧
    ¬ ((updateResult maxStreakMap "c" none 0 (some "boom") 7).2.ContiguousFailures =
        maxStreakResult.ContiguousFailures + 1) :=
  ⟨by decide, by decide, by decide, by decide⟩

/-- Claim C1 as amended: updateResult applies the streak rules relative
to the previously stored result, with the increment taken in wrapping
signed 64-bit arithmetic as Go defines for int64. A failed execution
after a healthy previous result, or with no previous result, yields
ContiguousFailures 1 and TimeOfFirstFailure equal to the new timestamp; a
failed execution after an unhealthy previous result sets
ContiguousFailures to the 64-bit wrapping sum of the previous value and
one (the previous value plus one except at the largest int64 value) and
preserves TimeOfFirstFailure; a successful execution resets both. The
previous binding is a stored result, so by claim C2 a healthy one has a
zero counter; that direction is the hypothesis. -/
theorem claim_C1 (results : SMap Result) (name : String) (details : Option String)
    (dur : Int) (err : Option String) (t : Nat)
    (hprev : ∀ p, mapLookup results name = some p → p.Error = none →
      p.ContiguousFailures = 0) :
    (updateResult results name details dur err t).2.Timestamp = t ∧
    (err ≠ none →
      (match mapLookup results name with
       | none =>
           (updateResult results name details dur err t).2.ContiguousFailures = 1 ∧
           (updateResult results name details dur err t).2.TimeOfFirstFailure = some t
       | some p =>
           if p.IsHealthy = true then
             (updateResult results name details dur err t).2.ContiguousFailures = 1 ∧
             (updateResult results name details dur err t).2.TimeOfFirstFailure = some t
           else
             (updateResult results name details dur err t).2.ContiguousFailures =
               int64Add p.ContiguousFailures 1 ∧
             (updateResult results name details dur err t).2.TimeOfFirstFailure =
               p.TimeOfFirstFailure)) ∧
    (err = none →
      (updateResult results name details dur err t).2.ContiguousFailures = 0 ∧
      (updateResult results name details dur err t).2.TimeOfFirstFailure = none) := by
  cases err with
  | none =>
      simp [updateResult, Result.IsHealthy, newMarshalableError]
  | some msg =>
      cases hl : mapLookup results name with
      | none =>
          simp [updateResult, Result.IsHealthy, newMarshalableError, hl]
      | some p =>
          cases hpe : p.Error with
          | none =>
              have hcf0 : p.ContiguousFailures = 0 := hprev p hl hpe
              simp [updateResult, Result.IsHealthy, newMarshalableError, hl, hpe, hcf0,
                int64Add_zero_one]
          | some e =>
              simp [updateResult, Result.IsHealthy, newMarshalableError, hl, hpe]

/-- Claim C1 witness: the theorem instantiated on the stored unhealthy
sample result and a further failing execution at time 7. -/
theorem claim_C1_witness :
    (updateResult sampleFailMap "c" none 0 (some "boom") 7).2.Timestamp = 7 ∧
    ((some "boom" : Option String) ≠ none →
      (match mapLookup sampleFailMap "c" with
       | none =>
           (updateResult sampleFailMap "c" none 0 (some "boom") 7).2.ContiguousFailures
             = 1 ∧
           (updateResult sampleFailMap "c" none 0 (some "boom") 7).2.TimeOfFirstFailure
             = some 7
       | some p =>
           if p.IsHealthy = true then
             (updateResult sampleFailMap "c" none 0 (some "boom") 7).2.ContiguousFailures
               = 1 ∧
             (updateResult sampleFailMap "c" none 0 (some "boom") 7).2.TimeOfFirstFailure
               = some 7
           else
             (updateResult sampleFailMap "c" none 0 (some "boom") 7).2.ContiguousFailures
               = int64Add p.ContiguousFailures 1 ∧
             (updateResult sampleFailMap "c" none 0 (some "boom") 7).2.TimeOfFirstFailure
               = p.TimeOfFirstFailure)) ∧
    ((some "boom" : Option String) = none →
      (updateResult sampleFailMap "c" none 0 (some "boom") 7).2.ContiguousFailures = 0 ∧
      (updateResult sampleFailMap "c" none 0 (some "boom") 7).2.TimeOfFirstFailure
        = none) :=
  claim_C1 sampleFailMap "c" none 0 (some "boom") 7 (by decide)

/-- One more failing execution of the sample check along a failing
streak: the stored counter is replaced by its wrapped successor and every
other component of the state is unchanged. -/
theorem streak_step (c : Int) (hre : Reachable (streakHealth c)) :
    Reachable (streakHealth (int64Add c 1)) := by
  have htask : (mapLookup (streakHealth c).checkTasks "c").isSome = true := by
    simp [streakHealth, mapLookup]
  have hstep := @Reachable.exec (streakHealth c) "c" none 0 (some "boom") 9 hre htask
  have heq : (checkAndUpdateResult (streakHealth c) "c" none 0 (some "boom") 9).1 =
      streakHealth (int64Add c 1) := by
    simp [checkAndUpdateResult, updateResult, streakHealth, streakResult, mapLookup,
      mapInsert, Result.IsHealthy, newMarshalableError]
  exact heq ▸ hstep

/-- Every length of failing streak is reachable: after the registration
and the first two failing executions, n further failing executions leave
the wrapped counter at the wrap of 2 + n. -/
theorem streak_reach (n : Nat) : Reachable (streakHealth (wrap64 (2 + (n : Int)))) := by
  induction n with
  | zero =>
      have hbase := @Reachable.exec sampleH1 "c" none 0 (some "boom") 9
        (@Reachable.register sampleH0 sampleH1 sampleCheck [] 5
          (Reachable.init 1 0 false) (by decide)) (by decide)
      have heq : (checkAndUpdateResult sampleH1 "c" none 0 (some "boom") 9).1 =
          streakHealth 2 := by decide
      have hw : wrap64 (2 + ((0 : Nat) : Int)) = 2 := by decide
      rw [hw]
      exact heq ▸ hbase
  | succ k ih =>
      have hstep := streak_step (wrap64 (2 + (k : Int))) ih
      have harg : 2 + (k : Int) + 1 = 2 + ((k + 1 : Nat) : Int) := by push_cast; ring
      have hw : int64Add (wrap64 (2 + (k : Int))) 1 =
          wrap64 (2 + ((k + 1 : Nat) : Int)) := by
        unfold int64Add
        rw [wrap64_wrap64_add, harg]
      rw [← hw]
      exact hstep

/-- Claim C2 counterexample: the claim asserts the three-way invariant
for every stored result; in the reachable state in which the failing
streak has run for exactly 2 to the 64 executions, the wrapped int64
counter has returned to zero while the error is still present, so zero
failures no longer implies a healthy result. -/
theorem claim_C2_cex :
    Reachable (streakHealth 0) ∧
    mapLookup (streakHealth 0).results "c" = some (streakResult 0) ∧
    ¬ ((streakResult 0).Error = none ↔ (streakResult 0).ContiguousFailures = 0) := by
  refine ⟨?_, by decide, by decide⟩
  have hre := streak_reach (2 ^ 64 - 2)
  have hw : wrap64 (2 + ((2 ^ 64 - 2 : Nat) : Int)) = 0 := by decide
  rw [hw] at hre
  exact hre

/-- Claim C2 as amended: every result stored in a reachable registry
state has its error absent iff its first-failure time is absent, and a
healthy stored result has ContiguousFailures zero. The converse - zero
ContiguousFailures implying a healthy result - fails under the wrapping
int64 counter: a streak of exactly 2 to the 64 failing executions wraps
the counter back to zero with the error still present. -/
theorem claim_C2 {h : Health} (hre : Reachable h) (name : String) (r : Result)
    (hr : mapLookup h.results name = some r) :
    (r.Error = none ↔ r.TimeOfFirstFailure = none) ∧
    (r.Error = none → r.ContiguousFailures = 0) := by
  obtain ⟨himp, hiff⟩ := reachable_strongInv hre name r hr
  exact ⟨hiff, himp⟩

/-- Claim C2 witness: the invariant evaluated on the initial result that
the sample registration stores. -/
theorem claim_C2_witness :
    (sampleInitialResult.Error = none ↔
      sampleInitialResult.TimeOfFirstFailure = none) ∧
    (sampleInitialResult.Error = none →
      sampleInitialResult.ContiguousFailures = 0) :=
  claim_C2
    (@Reachable.register sampleH0 sampleH1 sampleCheck [] 5
      (Reachable.init 1 0 false) (by decide))
    "c" sampleInitialResult (by decide)

/-- Claim C3: RegisterCheck fails exactly when the check is nil, its name
is empty, or the execution period resolved from the registry defaults and
the per-check options is not strictly positive; on failure the registry
state is returned unchanged. -/
theorem claim_C3 (h : Health) (check : Option Check) (opts : List CheckOption)
    (t : Nat) :
    ((RegisterCheck h check opts t).2.isSome = true ↔
      (match check with
       | none => True
       | some c => c.name = "" ∨ (initCheckConfig h opts).executionPeriod ≤ 0)) ∧
    ((RegisterCheck h check opts t).2.isSome = true →
      (RegisterCheck h check opts t).1 = h) := by
  cases check with
  | none => simp [RegisterCheck]
  | some c =>
      by_cases hn : c.name = ""
      · simp [RegisterCheck, hn]
      · by_cases hp : (initCheckConfig h opts).executionPeriod ≤ 0
        · simp [RegisterCheck, hn, hp]
        · simp [RegisterCheck, hn, hp]

/-- Claim C3 witness: registering a check with an empty name on the fresh
sample registry fails and returns the state unchanged. -/
theorem claim_C3_witness :
    ((RegisterCheck sampleH0 (some (Check.mk "")) [] 0).2.isSome = true ↔
      ((Check.mk "").name = "" ∨ (initCheckConfig sampleH0 []).executionPeriod ≤ 0)) ∧
    ((RegisterCheck sampleH0 (some (Check.mk "")) [] 0).2.isSome = true →
      (RegisterCheck sampleH0 (some (Check.mk "")) [] 0).1 = sampleH0) :=
  claim_C3 sampleH0 (some (Check.mk "")) [] 0

/-- Claim C6 counterexample: the claim asserts the equivalence between
the key sets of the result and task maps in particular at every point
between the critical sections of RegisterCheck; at the point between the
initial-result write and the task creation, reached from the reachable
fresh registry, the name is a key of the result map but not of the task
map, so the equivalence fails there. -/
theorem claim_C6_cex :
    Reachable sampleH0 ∧
    ¬ ((mapLookup sampleMid.results "c").isSome =
        (mapLookup sampleMid.checkTasks "c").isSome) :=
  ⟨Reachable.init 1 0 false, by decide⟩

/-- Claim C6 as amended: in every state reachable by completed registry
operations (after RegisterCheck returns, after an execution update, after
the task cleanup of stopCheckTask completes, and after Deregister or
DeregisterAll complete) a name is a key of the result map iff it is a key
of the task map; the window inside RegisterCheck between the
initial-result write and the task creation is excluded. -/
theorem claim_C6 {h : Health} (hre : Reachable h) (name : String) :
    (mapLookup h.results name).isSome = (mapLookup h.checkTasks name).isSome :=
  reachable_keys hre name

/-- Claim C6 witness: the equivalence evaluated on the registry obtained
by a completed sample registration. -/
theorem claim_C6_witness :
    (mapLookup sampleH1.results "c").isSome =
      (mapLookup sampleH1.checkTasks "c").isSome :=
  claim_C6
    (@Reachable.register sampleH0 sampleH1 sampleCheck [] 5
      (Reachable.init 1 0 false) (by decide))
    "c"

/-- Claim C8: Deregister on a name that is not a key of the task map is a
no-op: it completes without sending and returns the registry state
unchanged in every field. -/
theorem claim_C8 (h : Health) (name : String)
    (hno : mapLookup h.checkTasks name = none) :
    Deregister h name = some h := by
  unfold Deregister
  rw [hno]

/-- Claim C8 witness: deregistering an unknown name on the fresh sample
registry returns it unchanged. -/
theorem claim_C8_witness : Deregister sampleH0 "c" = some sampleH0 :=
  claim_C8 sampleH0 "c" (by decide)

/-- Claim C4: Results returns a copy of the result map (equal as a map)
together with a boolean that is true iff the map is empty or every result
in it is healthy, and IsHealthy returns the same boolean. -/
theorem claim_C4 (h : Health) (hnd : (mapKeys h.results).Nodup) :
    mapLookup (Results h).1 = mapLookup h.results ∧
    ((Results h).2 = true ↔
      (h.results = [] ∨ h.results.all (fun kv => kv.2.IsHealthy) = true)) ∧
    IsHealthy h = (Results h).2 := by
  have hsplit := results_foldl_split h.results [] true
  have hfst : (Results h).1 =
      h.results.foldl (fun acc kv => mapInsert acc kv.1 kv.2) [] := by
    unfold Results
    rw [hsplit]
  have hsnd : (Results h).2 = h.results.all (fun kv => kv.2.IsHealthy) := by
    unfold Results
    rw [hsplit]
    simp
  refine ⟨?_, ?_, ?_⟩
  · funext k
    rw [hfst]
    have hcopy := foldl_mapInsert_lookup (fun _ v => v) h.results [] k hnd
    refine Eq.trans hcopy ?_
    cases hml : mapLookup h.results k <;> simp [mapLookup]
  · rw [hsnd]
    constructor
    · intro ha
      exact Or.inr ha
    · rintro (hemp | ha)
      · rw [hemp]
        rfl
      · exact ha
  · rw [hsnd, IsHealthy, allHealthy_eq_all]

/-- Claim C4 witness: the theorem instantiated on the registry obtained
by the sample registration. -/
theorem claim_C4_witness :
    mapLookup (Results sampleH1).1 = mapLookup sampleH1.results ∧
    ((Results sampleH1).2 = true ↔
      (sampleH1.results = [] ∨
        sampleH1.results.all (fun kv => kv.2.IsHealthy) = true)) ∧
    IsHealthy sampleH1 = (Results sampleH1).2 :=
  claim_C4 sampleH1 (by decide)

/-- The per-task stop sends all complete when every stop channel is
empty. -/
theorem sendAllStops_total :
    ∀ l : SMap checkTask, l.all (fun kv => !kv.2.stopChan) = true →
      (sendAllStops l).isSome = true := by
  intro l
  induction l with
  | nil => intro _; rfl
  | cons kv rest ih =>
      intro hall
      obtain ⟨k0, task⟩ := kv
      simp only [List.all_cons, Bool.and_eq_true] at hall
      have hstop : task.stopChan = false := by
        have := hall.1
        simp at this
        exact this
      have ihr := ih hall.2
      cases hs : sendAllStops rest with
      | none => rw [hs] at ihr; simp at ihr
      | some r => simp [sendAllStops, chanSend1, hstop, hs]

/-- Claim C5 counterexample: from the reachable state in which one
Deregister has already buffered a stop signal that the worker has not yet
consumed, a second Deregister of the same name does not complete: the
plain send on the full capacity-1 channel blocks, refuting the claim that
the call completes without blocking for every state of the channel. -/
theorem claim_C5_cex :
    Reachable sampleH2 ∧ Deregister sampleH2 "c" = none := by
  refine ⟨?_, by decide⟩
  exact @Reachable.dereg sampleH1 sampleH2 "c"
    (@Reachable.register sampleH0 sampleH1 sampleCheck [] 5
      (Reachable.init 1 0 false) (by decide))
    (by decide)

/-- Claim C5 as amended: Deregister completes without blocking whenever
the name is unregistered or the stop channel of its task is empty, and
the per-task sends of DeregisterAll complete without blocking whenever
every stop channel is empty; when a stop signal is already buffered the
plain send on the capacity-1 channel blocks until the worker consumes it,
so only the first of repeated Deregister calls is non-blocking. -/
theorem claim_C5 (h : Health) (name : String)
    (hchan : (mapLookup h.checkTasks name).all (fun task => !task.stopChan) = true) :
    (Deregister h name).isSome = true ∧
    (h.checkTasks.all (fun kv => !kv.2.stopChan) = true →
      (DeregisterAll h).isSome = true) := by
  constructor
  · unfold Deregister
    cases hl : mapLookup h.checkTasks name with
    | none => rfl
    | some task =>
        rw [hl] at hchan
        have hstop : task.stopChan = false := by
          simpa [Option.all] using hchan
        simp [chanSend1, hstop]
  · intro hall
    unfold DeregisterAll
    have htot := sendAllStops_total h.checkTasks hall
    cases hs : sendAllStops h.checkTasks with
    | none => rw [hs] at htot; simp at htot
    | some ts => simp

/-- Claim C5 witness: both calls complete on the freshly registered
sample registry, whose single stop channel is empty. -/
theorem claim_C5_witness :
    (Deregister sampleH1 "c").isSome = true ∧
    (sampleH1.checkTasks.all (fun kv => !kv.2.stopChan) = true →
      (DeregisterAll sampleH1).isSome = true) :=
  claim_C5 sampleH1 "c" (by decide)

/-- Claim C7: a successful registration of a name with no stored result
writes an initial result carrying the registration time, duration zero
and the not-run-yet message as details; when the resolved initiallyPassing
flag is true the result is healthy with a zero streak, otherwise it
carries the synthetic error, a streak of one and the registration time as
first failure. -/
theorem claim_C7 (h : Health) (c : Check) (opts : List CheckOption) (t : Nat)
    (hnew : mapLookup h.results c.name = none)
    (hok : (RegisterCheck h (some c) opts t).2 = none) :
    mapLookup (RegisterCheck h (some c) opts t).1.results c.name =
      some (if (initCheckConfig h opts).initiallyPassing = true then
              { Details := some errNotRunYetMsg, Error := none, Timestamp := t,
                Duration := 0, ContiguousFailures := 0,
                TimeOfFirstFailure := none }
            else
              { Details := some errNotRunYetMsg, Error := some errNotRunYetMsg,
                Timestamp := t, Duration := 0, ContiguousFailures := 1,
                TimeOfFirstFailure := some t }) := by
  have hpair : RegisterCheck h (some c) opts t =
      ((RegisterCheck h (some c) opts t).1, none) := by
    rw [← hok]
  rw [registerCheck_ok hpair]
  simp only
  rw [updateResult_fst, mapLookup_mapInsert_self]
  by_cases hip : (initCheckConfig h opts).initiallyPassing = true
  · simp [updateResult, Result.IsHealthy, newMarshalableError, ErrNotRunYet, hnew, hip]
  · simp [updateResult, Result.IsHealthy, newMarshalableError, ErrNotRunYet, hnew, hip]

/-- Claim C7 witness: the initial result stored by the sample
registration at time 5 without the initially-passing option. -/
theorem claim_C7_witness :
    mapLookup (RegisterCheck sampleH0 (some sampleCheck) [] 5).1.results
        sampleCheck.name =
      some (if (initCheckConfig sampleH0 []).initiallyPassing = true then
              { Details := some errNotRunYetMsg, Error := none, Timestamp := 5,
                Duration := 0, ContiguousFailures := 0,
                TimeOfFirstFailure := none }
            else
              { Details := some errNotRunYetMsg, Error := some errNotRunYetMsg,
                Timestamp := 5, Duration := 0, ContiguousFailures := 1,
                TimeOfFirstFailure := some 5 }) :=
  claim_C7 sampleH0 sampleCheck [] 5 (by decide) (by decide)

/-- Claim C9: the HTTP handler writes status 200 iff the healthy flag of
the snapshot is true and 503 otherwise, so an empty registry yields 200;
with the query parameter type set to short, the body maps each check name
of the snapshot to PASS when its result is healthy and FAIL otherwise. -/
theorem claim_C9 (h : Health) (ty : String) :
    ((HandleHealthJSON h ty).1 = if (Results h).2 = true then 200 else 503) ∧
    (h.results = [] → (HandleHealthJSON h ty).1 = 200) ∧
    ((HandleHealthJSON h "short").2.shortEntries.isSome = true) ∧
    (mapLookup (((HandleHealthJSON h "short").2.shortEntries).getD []) =
      fun k => (mapLookup (Results h).1 k).map
        (fun v => if v.IsHealthy = true then "PASS" else "FAIL")) := by
  have hsplit := results_foldl_split h.results [] true
  have hfst : (Results h).1 =
      h.results.foldl (fun acc kv => mapInsert acc kv.1 kv.2) [] := by
    unfold Results
    rw [hsplit]
  have hnd : (mapKeys (Results h).1).Nodup := by
    rw [hfst]
    exact foldl_mapInsert_nodup (fun _ v => v) h.results [] (by simp)
  refine ⟨?_, ?_, ?_, ?_⟩
  · by_cases hty : ty = "short" <;> simp [HandleHealthJSON, hty]
  · intro hemp
    have hres : Results h = ([], true) := by
      unfold Results
      rw [hemp]
      rfl
    by_cases hty : ty = "short" <;> simp [HandleHealthJSON, hty, hres]
  · simp [HandleHealthJSON, HealthBody.shortEntries]
  · funext k
    have hl := foldl_mapInsert_lookup
      (fun _ v => if v.IsHealthy = true then "PASS" else "FAIL")
      (Results h).1 [] k hnd
    have hred : ((HandleHealthJSON h "short").2.shortEntries).getD [] =
        (Results h).1.foldl
          (fun acc kv =>
            mapInsert acc kv.1 (if kv.2.IsHealthy = true then "PASS" else "FAIL"))
          [] := by
      simp [HandleHealthJSON, HealthBody.shortEntries]
    rw [hred]
    refine Eq.trans hl ?_
    cases hml : mapLookup (Results h).1 k <;> simp [mapLookup]

/-- Claim C9 witness: the handler evaluated on the unhealthy sample
registry with the short report type. -/
theorem claim_C9_witness :
    ((HandleHealthJSON sampleH1 "short").1 =
      if (Results sampleH1).2 = true then 200 else 503) ∧
    (sampleH1.results = [] → (HandleHealthJSON sampleH1 "short").1 = 200) ∧
    ((HandleHealthJSON sampleH1 "short").2.shortEntries.isSome = true) ∧
    (mapLookup (((HandleHealthJSON sampleH1 "short").2.shortEntries).getD []) =
      fun k => (mapLookup (Results sampleH1).1 k).map
        (fun v => if v.IsHealthy = true then "PASS" else "FAIL")) :=
  claim_C9 sampleH1 "short"

/-- Claim C10: updateResult returns exactly the result it stores, so the
value checkAndUpdateResult passes to OnCheckCompleted is the entry this
update leaves in the result map for that name. -/
theorem claim_C10 (h : Health) (name : String) (details : Option String)
    (duration : Int) (err : Option String) (t : Nat) :
    mapLookup (checkAndUpdateResult h name details duration err t).1.results name =
      some (checkAndUpdateResult h name details duration err t).2 := by
  simp only [checkAndUpdateResult]
  rw [updateResult_fst, mapLookup_mapInsert_self]

end GoSundheit
